/-
Verification of the File Organizer (file_organizer/__main__.py).

Shallow embedding: absolute, normalized filesystem paths are lists of
components (`Path := List String`); `Path.resolve()` on such paths is the
identity, so the source's `p.resolve() == dest.resolve()` comparison becomes
plain equality.  The filesystem is a pair of lists (files, dirs); console
output is a trace of messages; the undo-log file is a separate slot holding
the decoded JSON contents (a list of path pairs), `none` when absent.
-/
import Mathlib

deriving instance DecidableEq for Except

namespace FileOrganizer

/-- An absolute, normalized filesystem path, as its list of components. -/
abbrev Path : Type := List String

/-- `pathlib.Path.name`: the final component. -/
def fileName (p : Path) : String := p.getLastD ""

/-- `pathlib.Path.with_name`: replace the final component. -/
def withName (p : Path) (s : String) : Path := p.dropLast ++ [s]

/-- `pathlib` stem/suffix split of a filename: `i = name.rfind('.')`;
if `0 < i < len(name)-1` then `(name[:i], name[i:])` else `(name, "")`. -/
def pySplit (name : String) : String × String :=
  let cs := name.data
  match cs.reverse.findIdx? (· == '.') with
  | none => (name, "")
  | some j =>
    let i := cs.length - 1 - j
    if 0 < i ∧ i < cs.length - 1 then (⟨cs.take i⟩, ⟨cs.drop i⟩) else (name, "")

/-- `pathlib.Path.stem` of the final component. -/
def pyStem (name : String) : String := (pySplit name).1

/-- `pathlib.Path.suffix` of the final component. -/
def pySuffix (name : String) : String := (pySplit name).2

/-- Python `str.lstrip(".")`: drop leading dots. -/
def lstripDots (s : String) : String := ⟨s.data.dropWhile (· == '.')⟩

/-- Python `str.lower()`, character by character (what `String.toLower`
computes, stated over the character list so that it evaluates). -/
def strLower (s : String) : String := ⟨s.data.map Char.toLower⟩

/-- `ext = p.suffix.lower().lstrip(".") or "no_ext"` from `plan_moves`. -/
def extDir (name : String) : String :=
  let e := lstripDots (strLower (pySuffix name))
  if e = "" then "no_ext" else e

/-- Python `f"{n:0wd}"`: decimal representation zero-padded to width `w`. -/
def pad (w : Nat) (n : Nat) : String :=
  ⟨List.replicate (w - (Nat.repr n).length) '0' ++ (Nat.repr n).data⟩

/-- One entry yielded by `source.iterdir()`: its name, whether it is a
directory, and the year/month of `datetime.fromtimestamp(p.stat().st_mtime)`
(the timestamp decomposition is environment input). -/
structure Entry where
  name : String
  isDir : Bool
  year : Nat
  month : Nat
deriving DecidableEq, Repr

/-- `plan_moves(source, target, mode)` over the listing of `source`:
skips directories, computes the destination per mode (raising `ValueError`
on an unknown mode), drops entries whose destination resolves to the origin,
and returns the (origin, destination) pairs in listing order. -/
def plan_moves (source target : Path) (mode : String) : List Entry → Except String (List (Path × Path))
  | [] => .ok []
  | e :: es =>
    if e.isDir then plan_moves source target mode es
    else if mode = "ext" then
      let p := source ++ [e.name]
      let dest := target ++ [extDir e.name, e.name]
      match plan_moves source target mode es with
      | .error s => .error s
      | .ok rest => .ok (if p = dest then rest else (p, dest) :: rest)
    else if mode = "date" then
      let p := source ++ [e.name]
      let dest := target ++ [pad 4 e.year, pad 2 e.month, e.name]
      match plan_moves source target mode es with
      | .error s => .error s
      | .ok rest => .ok (if p = dest then rest else (p, dest) :: rest)
    else .error "mode must be 'ext' or 'date'"

/-- The filesystem: the set of regular files and the set of directories,
each as a duplicate-free list of absolute paths. -/
structure FS where
  files : List Path
  dirs : List Path
deriving DecidableEq, Repr

/-- `Path.exists()`: the path is a file or a directory. -/
def pexists (fs : FS) (p : Path) : Prop := p ∈ fs.files ∨ p ∈ fs.dirs

instance (fs : FS) (p : Path) : Decidable (pexists fs p) :=
  inferInstanceAs (Decidable (_ ∨ _))

/-- All nonempty prefixes of a path (the directory and its ancestors). -/
def ancestors (p : Path) : List Path :=
  (List.range p.length).map (fun i => p.take (i + 1))

/-- `p.mkdir(parents=True, exist_ok=True)`: create `p` and every ancestor
that is not already present. -/
def mkdirp (fs : FS) (p : Path) : FS :=
  { fs with
    dirs := (ancestors p).foldl (fun ds d => if d ∈ ds then ds else ds.concat d) fs.dirs }

/-- `shutil.move(src, dst)` for a regular file on one filesystem: `src`
disappears, `dst` appears (replacing any file already there). -/
def moveFile (fs : FS) (src dst : Path) : FS :=
  let fl := fs.files.erase src
  { fs with files := if dst ∈ fl then fl else fl.concat dst }

/-- Console messages printed by the program, one constructor per `print`. -/
inductive Msg where
  | dryPreview (src dst : Path)
  | moved (src dst : Path)
  | logWritten
  | noLogFound
  | dryUndo (dst src : Path)
  | undone (dst src : Path)
  | skipMissing (dst : Path)
deriving DecidableEq, Repr

/-- Program-visible world: the filesystem, the contents of the undo-log
file (`none` when the file does not exist), and the console output. -/
structure World where
  fs : FS
  log : Option (List (Path × Path))
  out : List Msg
deriving DecidableEq, Repr

/-- The collision candidate `dst.with_name(f"{stem} ({i}){suf}")`. -/
def candName (dst : Path) (i : Nat) : String :=
  pyStem (fileName dst) ++ " (" ++ Nat.repr i ++ ")" ++ pySuffix (fileName dst)

/-- The collision candidate as a path. -/
def candidate (dst : Path) (i : Nat) : Path := withName dst (candName dst i)

/-- The `while True` dedupe loop of `do_moves`, starting at counter `i`,
with explicit fuel: returns the first candidate that does not exist
(`none` only when the fuel runs out, which `dedupeLoop_complete` rules out
for the fuel `freshDest` supplies). -/
def dedupeLoop (fs : FS) (dst : Path) : Nat → Nat → Option Path
  | 0, _ => none
  | fuel + 1, i =>
    if pexists fs (candidate dst i) then dedupeLoop fs dst fuel (i + 1)
    else some (candidate dst i)

/-- The `# dedupe if exists` block of `do_moves`: if `dst` exists, run the
dedupe loop from counter 1; otherwise keep `dst`. -/
def freshDest (fs : FS) (dst : Path) : Path :=
  if pexists fs dst then
    (dedupeLoop fs dst (fs.files.length + fs.dirs.length + 1) 1).getD dst
  else dst

/-- One iteration of the `do_moves` loop: make the destination's parent
directories, then either preview (dry run) or dedupe, move and record. -/
def execOne (dryRun : Bool) (st : FS × List (Path × Path) × List Msg) (op : Path × Path) :
    FS × List (Path × Path) × List Msg :=
  let fs := mkdirp st.1 op.2.dropLast
  if dryRun then (fs, st.2.1, st.2.2 ++ [.dryPreview op.1 op.2])
  else
    let dst := freshDest fs op.2
    (moveFile fs op.1 dst, st.2.1 ++ [(op.1, dst)], st.2.2 ++ [.moved op.1 dst])

/-- `do_moves(ops, dry_run, undo_log)`: run every operation, then, when not
dry-run, an undo-log path was given and at least one move was performed,
write the performed `(origin, destination)` pairs to the undo log. -/
def do_moves (w : World) (ops : List (Path × Path)) (dryRun : Bool) (haveUndoLog : Bool) : World :=
  let st := ops.foldl (execOne dryRun) (w.fs, [], w.out)
  if !dryRun && haveUndoLog && !st.2.1.isEmpty then
    { fs := st.1, log := some st.2.1, out := st.2.2 ++ [.logWritten] }
  else
    { fs := st.1, log := w.log, out := st.2.2 }

/-- One iteration of the `undo` loop over a log record.  The source
unpacks `for dst, src in reversed(moves)`, so `dst_p` is the record's FIRST
component and `src_p` its second; when not dry-run it makes `src_p`'s parent
directories and, if `dst_p` exists, moves `dst_p` to `src_p`, else skips. -/
def undoOne (dryRun : Bool) (st : FS × List Msg) (rec : Path × Path) : FS × List Msg :=
  let dst_p := rec.1
  let src_p := rec.2
  if dryRun then (st.1, st.2 ++ [.dryUndo dst_p src_p])
  else
    let fs := mkdirp st.1 src_p.dropLast
    if pexists fs dst_p then (moveFile fs dst_p src_p, st.2 ++ [.undone dst_p src_p])
    else (fs, st.2 ++ [.skipMissing dst_p])

/-- `undo(undo_log, dry_run)`: if the log file does not exist, print
`"No undo log found."` and return; otherwise process the records in
reverse order. -/
def undo (w : World) (dryRun : Bool) : World :=
  match w.log with
  | none => { w with out := w.out ++ [.noLogFound] }
  | some moves =>
    let st := moves.reverse.foldl (undoOne dryRun) (w.fs, w.out)
    { w with fs := st.1, out := st.2 }

/-! ### The decimal counter makes collision candidates pairwise distinct -/

/-- Decimal decoding step, inverting `Nat.repr` digit by digit. -/
def decStep (a : Nat) (c : Char) : Nat := 10 * a + (c.toNat - 48)

/-- Decode a list of decimal digit characters back to a number. -/
def decodeChars (cs : List Char) : Nat := cs.foldl decStep 0

/-- Number of decimal digits of `n` (1 for `n < 10`). -/
def sigLen (n : Nat) : Nat :=
  if _h : n < 10 then 1 else sigLen (n / 10) + 1
decreasing_by exact Nat.div_lt_self (by omega) (by omega)

theorem digitChar_toNat {m : Nat} (h : m < 10) : (Nat.digitChar m).toNat = 48 + m := by
  interval_cases m <;> rfl

theorem toDigitsCore_succ (f n : Nat) (acc : List Char) :
    Nat.toDigitsCore 10 (f + 1) n acc =
      if n / 10 = 0 then Nat.digitChar (n % 10) :: acc
      else Nat.toDigitsCore 10 f (n / 10) (Nat.digitChar (n % 10) :: acc) := rfl

theorem toDigitsCore_foldl (f : Nat) : ∀ (n : Nat) (acc : List Char) (a : Nat), n < f →
    (Nat.toDigitsCore 10 f n acc).foldl decStep a =
      acc.foldl decStep (a * 10 ^ sigLen n + n) := by
  induction f with
  | zero => intro n acc a h; omega
  | succ f ih =>
    intro n acc a h
    rw [toDigitsCore_succ]
    by_cases h10 : n / 10 = 0
    · have hn : n < 10 := by omega
      rw [if_pos h10]
      show acc.foldl decStep (decStep a (Nat.digitChar (n % 10))) = _
      have hstep : decStep a (Nat.digitChar (n % 10)) = a * 10 ^ sigLen n + n := by
        rw [sigLen]
        simp only [decStep, digitChar_toNat (Nat.mod_lt n (by omega)), dif_pos hn, pow_one]
        omega
      rw [hstep]
    · rw [if_neg h10]
      have hlt : n / 10 < f := by omega
      rw [ih (n / 10) (Nat.digitChar (n % 10) :: acc) a hlt]
      show acc.foldl decStep (decStep (a * 10 ^ sigLen (n / 10) + n / 10) (Nat.digitChar (n % 10))) = _
      have hstep : decStep (a * 10 ^ sigLen (n / 10) + n / 10) (Nat.digitChar (n % 10)) =
          a * 10 ^ sigLen n + n := by
        have hs : sigLen n = sigLen (n / 10) + 1 := by
          rw [sigLen]
          exact dif_neg (by omega)
        rw [hs, pow_succ, ← mul_assoc]
        simp only [decStep, digitChar_toNat (Nat.mod_lt n (by omega))]
        generalize a * 10 ^ sigLen (n / 10) = u
        omega
      rw [hstep]

theorem decodeChars_repr (n : Nat) : decodeChars (Nat.repr n).data = n := by
  show (Nat.toDigitsCore 10 (n + 1) n []).foldl decStep 0 = n
  rw [toDigitsCore_foldl (n + 1) n [] 0 (by omega)]
  simp [List.foldl]

theorem repr_inj {i j : Nat} (h : Nat.repr i = Nat.repr j) : i = j := by
  have hi := decodeChars_repr i
  rw [h, decodeChars_repr j] at hi
  omega

theorem candName_inj (dst : Path) {i j : Nat} (h : candName dst i = candName dst j) : i = j := by
  unfold candName at h
  have hd := congrArg String.data h
  simp only [String.data_append, List.append_assoc] at hd
  have h1 := List.append_cancel_left hd
  have h2 := List.append_cancel_left h1
  have h3 := List.append_cancel_right h2
  have hi := congrArg decodeChars h3
  rw [decodeChars_repr, decodeChars_repr] at hi
  exact hi

theorem candidate_inj (dst : Path) {i j : Nat} (h : candidate dst i = candidate dst j) : i = j := by
  unfold candidate withName at h
  have h1 := List.append_cancel_left h
  exact candName_inj dst (List.singleton_injective h1)

/-! ### Termination of the dedupe loop: a free candidate always exists -/

theorem exists_free_cand (fs : FS) (dst : Path) (i : Nat) :
    ∃ j, j < fs.files.length + fs.dirs.length + 1 ∧ ¬ pexists fs (candidate dst (i + j)) := by
  by_contra hcon
  push_neg at hcon
  have hnd : ((List.range (fs.files.length + fs.dirs.length + 1)).map
      (fun j => candidate dst (i + j))).Nodup := by
    refine List.Nodup.map ?_ (List.nodup_range _)
    intro a b hab
    have := candidate_inj dst hab
    omega
  have hsub : ((List.range (fs.files.length + fs.dirs.length + 1)).map
      (fun j => candidate dst (i + j))) ⊆ fs.files ++ fs.dirs := by
    intro x hx
    obtain ⟨j, hj, rfl⟩ := List.mem_map.mp hx
    have hj' := List.mem_range.mp hj
    rcases hcon j hj' with h | h
    · exact List.mem_append.mpr (Or.inl h)
    · exact List.mem_append.mpr (Or.inr h)
  have hlen := (hnd.subperm hsub).length_le
  simp [List.length_append] at hlen

theorem dedupeLoop_spec (fs : FS) (dst : Path) :
    ∀ (fuel i : Nat), (∃ j, j < fuel ∧ ¬ pexists fs (candidate dst (i + j))) →
    ∃ k, i ≤ k ∧ dedupeLoop fs dst fuel i = some (candidate dst k) ∧
      ¬ pexists fs (candidate dst k) ∧ ∀ m, i ≤ m → m < k → pexists fs (candidate dst m) := by
  intro fuel
  induction fuel with
  | zero =>
    intro i h
    obtain ⟨j, hj, _⟩ := h
    omega
  | succ fuel ih =>
    intro i h
    obtain ⟨j, hj, hfree⟩ := h
    rw [dedupeLoop]
    by_cases hex : pexists fs (candidate dst i)
    · rw [if_pos hex]
      have hj0 : j ≠ 0 := by
        rintro rfl
        exact hfree (by simpa using hex)
      have hshift : i + 1 + (j - 1) = i + j := by omega
      obtain ⟨k, hik, heq, hfree', hmin⟩ :=
        ih (i + 1) ⟨j - 1, by omega, by rw [hshift]; exact hfree⟩
      refine ⟨k, by omega, heq, hfree', fun m him hmk => ?_⟩
      rcases Nat.eq_or_lt_of_le him with rfl | hlt
      · exact hex
      · exact hmin m (by omega) hmk
    · rw [if_neg hex]
      exact ⟨i, Nat.le_refl i, rfl, hex, fun m him hmk => by omega⟩

theorem freshDest_spec (fs : FS) (dst : Path) (h : pexists fs dst) :
    ∃ k, 1 ≤ k ∧ freshDest fs dst = candidate dst k ∧ ¬ pexists fs (candidate dst k) ∧
      ∀ m, 1 ≤ m → m < k → pexists fs (candidate dst m) := by
  obtain ⟨j, hj, hfree⟩ := exists_free_cand fs dst 1
  obtain ⟨k, hk1, heq, hfree', hmin⟩ :=
    dedupeLoop_spec fs dst (fs.files.length + fs.dirs.length + 1) 1 ⟨j, hj, hfree⟩
  refine ⟨k, hk1, ?_, hfree', hmin⟩
  rw [freshDest, if_pos h, heq]
  rfl

/-! ### Shape of the operations produced by the planner -/

theorem getLastD_append_singleton (l : List String) (s : String) :
    ∀ d, (l ++ [s]).getLastD d = s := by
  induction l with
  | nil => intro d; rfl
  | cons a l ih => intro d; rw [List.cons_append, List.getLastD_cons]; exact ih a

theorem fileName_append_singleton (l : Path) (s : String) : fileName (l ++ [s]) = s :=
  getLastD_append_singleton l s ""

theorem plan_moves_mem (source target : Path) (mode : String) :
    ∀ (entries : List Entry) (ops : List (Path × Path)),
    plan_moves source target mode entries = .ok ops →
    ∀ op ∈ ops, ∃ e ∈ entries, e.isDir = false ∧ op.1 = source ++ [e.name] ∧ op.1 ≠ op.2 ∧
      (op.2 = target ++ [extDir e.name, e.name] ∨
       op.2 = target ++ [pad 4 e.year, pad 2 e.month, e.name]) := by
  intro entries
  induction entries with
  | nil =>
    intro ops h op hop
    rw [plan_moves] at h
    obtain rfl : ([] : List (Path × Path)) = ops := Except.ok.inj h
    cases hop
  | cons e es ih =>
    intro ops h op hop
    rw [plan_moves] at h
    by_cases hdir : e.isDir = true
    · rw [if_pos hdir] at h
      obtain ⟨e', he', rest⟩ := ih ops h op hop
      exact ⟨e', List.mem_cons_of_mem _ he', rest⟩
    · rw [if_neg hdir] at h
      by_cases hm : mode = "ext"
      · rw [if_pos hm] at h
        cases hrec : plan_moves source target mode es with
        | error s => rw [hrec] at h; cases h
        | ok rest =>
          rw [hrec] at h
          obtain rfl := (Except.ok.inj h).symm
          by_cases hnoop : source ++ [e.name] = target ++ [extDir e.name, e.name]
          · rw [if_pos hnoop] at hop
            obtain ⟨e', he', hrest⟩ := ih rest hrec op hop
            exact ⟨e', List.mem_cons_of_mem _ he', hrest⟩
          · rw [if_neg hnoop] at hop
            rcases List.mem_cons.mp hop with rfl | hop'
            · exact ⟨e, List.mem_cons_self _ _, Bool.eq_false_iff.mpr hdir, rfl, hnoop, Or.inl rfl⟩
            · obtain ⟨e', he', hrest⟩ := ih rest hrec op hop'
              exact ⟨e', List.mem_cons_of_mem _ he', hrest⟩
      · rw [if_neg hm] at h
        by_cases hm' : mode = "date"
        · rw [if_pos hm'] at h
          cases hrec : plan_moves source target mode es with
          | error s => rw [hrec] at h; cases h
          | ok rest =>
            rw [hrec] at h
            obtain rfl := (Except.ok.inj h).symm
            by_cases hnoop : source ++ [e.name] = target ++ [pad 4 e.year, pad 2 e.month, e.name]
            · rw [if_pos hnoop] at hop
              obtain ⟨e', he', hrest⟩ := ih rest hrec op hop
              exact ⟨e', List.mem_cons_of_mem _ he', hrest⟩
            · rw [if_neg hnoop] at hop
              rcases List.mem_cons.mp hop with rfl | hop'
              · exact ⟨e, List.mem_cons_self _ _, Bool.eq_false_iff.mpr hdir, rfl, hnoop, Or.inr rfl⟩
              · obtain ⟨e', he', hrest⟩ := ih rest hrec op hop'
                exact ⟨e', List.mem_cons_of_mem _ he', hrest⟩
        · rw [if_neg hm'] at h
          cases h

/-! ### The claims -/

/-- Claim C1 fails on the code: after a non-dry-run organize of a single file
(the plan produced by `plan_moves`) followed by a non-dry-run undo of the
written log, the file is still at its destination `t/txt/a.txt` — the undo
pass only emits a skip, because it tests existence of the record's first
component (the origin, which no longer exists) instead of its second — so the
set of file paths after undo differs from the set before organize. -/
theorem organize_undo_not_roundtrip :
    plan_moves ["s"] ["t"] "ext" [⟨"a.txt", false, 0, 0⟩] =
      .ok [(["s", "a.txt"], ["t", "txt", "a.txt"])] ∧
    (undo (do_moves ⟨⟨[["s", "a.txt"]], [["s"], ["t"]]⟩, none, []⟩
        [(["s", "a.txt"], ["t", "txt", "a.txt"])] false true) false).fs.files =
      [["t", "txt", "a.txt"]] ∧
    (undo (do_moves ⟨⟨[["s", "a.txt"]], [["s"], ["t"]]⟩, none, []⟩
        [(["s", "a.txt"], ["t", "txt", "a.txt"])] false true) false).fs.files ≠
      [["s", "a.txt"]] :=
  ⟨by decide, by decide, by decide⟩

/-- Claim C2 fails on the code: for the log record
`(origin, destination) = (s/a.txt, t/txt/a.txt)` with the destination present
on disk and the origin absent (the normal state after an organize), a
non-dry-run undo does not move the destination back to the origin: the source
unpacks `for dst, src in reversed(moves)` against the `(origin, destination)`
write order, so it existence-checks the origin, emits a skip naming the
origin, and leaves the file at the destination. -/
theorem undo_record_direction_bug :
    (undo ⟨⟨[["t", "txt", "a.txt"]], [["s"], ["t"], ["t", "txt"]]⟩,
        some [(["s", "a.txt"], ["t", "txt", "a.txt"])], []⟩ false).fs.files =
      [["t", "txt", "a.txt"]] ∧
    (undo ⟨⟨[["t", "txt", "a.txt"]], [["s"], ["t"], ["t", "txt"]]⟩,
        some [(["s", "a.txt"], ["t", "txt", "a.txt"])], []⟩ false).fs.files ≠
      [["s", "a.txt"]] ∧
    (undo ⟨⟨[["t", "txt", "a.txt"]], [["s"], ["t"], ["t", "txt"]]⟩,
        some [(["s", "a.txt"], ["t", "txt", "a.txt"])], []⟩ false).out =
      [Msg.skipMissing ["s", "a.txt"]] := by
  decide

/-- Claim C3 fails on the code: `do_moves` calls
`dst.parent.mkdir(parents=True, exist_ok=True)` before testing `dry_run`, so
a dry-run execution of a one-move plan creates the destination's parent
directories (`t` and `t/txt` here) even though it moves no file and writes no
log. -/
theorem dry_run_creates_dirs :
    (do_moves ⟨⟨[["s", "a.txt"]], [["s"]]⟩, none, []⟩
        [(["s", "a.txt"], ["t", "txt", "a.txt"])] true true).fs.dirs =
      [["s"], ["t"], ["t", "txt"]] ∧
    (do_moves ⟨⟨[["s", "a.txt"]], [["s"]]⟩, none, []⟩
        [(["s", "a.txt"], ["t", "txt", "a.txt"])] true true).fs.dirs ≠ [["s"]] ∧
    (do_moves ⟨⟨[["s", "a.txt"]], [["s"]]⟩, none, []⟩
        [(["s", "a.txt"], ["t", "txt", "a.txt"])] true true).fs.files =
      [["s", "a.txt"]] ∧
    (do_moves ⟨⟨[["s", "a.txt"]], [["s"]]⟩, none, []⟩
        [(["s", "a.txt"], ["t", "txt", "a.txt"])] true true).log = none := by
  decide

/-- Claim C4: when the destination of a non-dry-run move already exists, the
executor's dedupe block returns `candidate dst k` — the name with ` (k)`
inserted before the extension — for the least counter `k ≥ 1` whose candidate
does not exist, and the returned destination itself does not exist, so the
move never overwrites an existing file. -/
theorem collision_resolution_fresh (fs : FS) (dst : Path) (h : pexists fs dst) :
    ∃ k, 1 ≤ k ∧ freshDest fs dst = candidate dst k ∧ ¬ pexists fs (candidate dst k) ∧
      (∀ m, 1 ≤ m → m < k → pexists fs (candidate dst m)) ∧
      ¬ pexists fs (freshDest fs dst) := by
  obtain ⟨k, hk, heq, hfree, hmin⟩ := freshDest_spec fs dst h
  refine ⟨k, hk, heq, hfree, hmin, ?_⟩
  rw [heq]
  exact hfree

theorem collision_resolution_fresh_witness :
    pexists ⟨[["t", "a.txt"]], []⟩ ["t", "a.txt"] ∧
    (∃ k, 1 ≤ k ∧
      freshDest ⟨[["t", "a.txt"]], []⟩ ["t", "a.txt"] = candidate ["t", "a.txt"] k ∧
      ¬ pexists ⟨[["t", "a.txt"]], []⟩ (candidate ["t", "a.txt"] k) ∧
      (∀ m, 1 ≤ m → m < k → pexists ⟨[["t", "a.txt"]], []⟩ (candidate ["t", "a.txt"] m)) ∧
      ¬ pexists ⟨[["t", "a.txt"]], []⟩ (freshDest ⟨[["t", "a.txt"]], []⟩ ["t", "a.txt"])) :=
  ⟨by decide, collision_resolution_fresh ⟨[["t", "a.txt"]], []⟩ ["t", "a.txt"] (by decide)⟩

/-- Claim C5: a source listing of exactly `a.txt`, `b.TXT` and `c` planned
by-extension yields exactly the three operations sending `a.txt` and `b.TXT`
under `target/txt` and `c` under `target/no_ext`, keeping each filename (the
two hypotheses only rule out the degenerate placements where an operation
would be a no-op and be filtered). -/
theorem plan_ext_scenario (source target : Path) (y₁ m₁ y₂ m₂ y₃ m₃ : Nat)
    (h1 : source ≠ target ++ ["txt"]) (h2 : source ≠ target ++ ["no_ext"]) :
    plan_moves source target "ext"
        [⟨"a.txt", false, y₁, m₁⟩, ⟨"b.TXT", false, y₂, m₂⟩, ⟨"c", false, y₃, m₃⟩] =
      .ok [(source ++ ["a.txt"], target ++ ["txt", "a.txt"]),
           (source ++ ["b.TXT"], target ++ ["txt", "b.TXT"]),
           (source ++ ["c"], target ++ ["no_ext", "c"])] := by
  have hea : extDir "a.txt" = "txt" := by decide
  have heb : extDir "b.TXT" = "txt" := by decide
  have hec : extDir "c" = "no_ext" := by decide
  have hx1 : (target ++ ["txt"]) ++ ["a.txt"] = target ++ ["txt", "a.txt"] := by simp
  have hx2 : (target ++ ["txt"]) ++ ["b.TXT"] = target ++ ["txt", "b.TXT"] := by simp
  have hx3 : (target ++ ["no_ext"]) ++ ["c"] = target ++ ["no_ext", "c"] := by simp
  have hne1 : source ++ ["a.txt"] ≠ target ++ ["txt", "a.txt"] := fun hcon =>
    h1 (List.append_cancel_right (hcon.trans hx1.symm))
  have hne2 : source ++ ["b.TXT"] ≠ target ++ ["txt", "b.TXT"] := fun hcon =>
    h1 (List.append_cancel_right (hcon.trans hx2.symm))
  have hne3 : source ++ ["c"] ≠ target ++ ["no_ext", "c"] := fun hcon =>
    h2 (List.append_cancel_right (hcon.trans hx3.symm))
  simp [plan_moves, hea, heb, hec, hne1, hne2, hne3]

theorem plan_ext_scenario_witness :
    (["s"] : Path) ≠ ["t"] ++ ["txt"] ∧ (["s"] : Path) ≠ ["t"] ++ ["no_ext"] ∧
    plan_moves ["s"] ["t"] "ext"
        [⟨"a.txt", false, 0, 0⟩, ⟨"b.TXT", false, 0, 0⟩, ⟨"c", false, 0, 0⟩] =
      .ok [(["s"] ++ ["a.txt"], ["t"] ++ ["txt", "a.txt"]),
           (["s"] ++ ["b.TXT"], ["t"] ++ ["txt", "b.TXT"]),
           (["s"] ++ ["c"], ["t"] ++ ["no_ext", "c"])] :=
  ⟨by decide, by decide,
    plan_ext_scenario ["s"] ["t"] 0 0 0 0 0 0 (by decide) (by decide)⟩

/-- Claim C6: every operation of a successful plan has destination different
from its origin (entries whose computed destination resolves to the origin
are filtered out), and every operation originates from a non-directory entry
of the source listing (directory entries are skipped). -/
theorem plan_excludes_noops_and_dirs (source target : Path) (mode : String)
    (entries : List Entry) (ops : List (Path × Path))
    (h : plan_moves source target mode entries = .ok ops) :
    ∀ op ∈ ops, op.1 ≠ op.2 ∧
      ∃ e ∈ entries, e.isDir = false ∧ op.1 = source ++ [e.name] := by
  intro op hop
  obtain ⟨e, he, hdir, ho, hne, _⟩ := plan_moves_mem source target mode entries ops h op hop
  exact ⟨hne, e, he, hdir, ho⟩

theorem plan_excludes_noops_and_dirs_witness :
    plan_moves ["s"] ["t"] "ext" [⟨"a.txt", false, 0, 0⟩] =
      .ok [(["s", "a.txt"], ["t", "txt", "a.txt"])] ∧
    ∀ op ∈ [((["s", "a.txt"] : Path), (["t", "txt", "a.txt"] : Path))], op.1 ≠ op.2 ∧
      ∃ e ∈ [(⟨"a.txt", false, 0, 0⟩ : Entry)], e.isDir = false ∧ op.1 = ["s"] ++ [e.name] :=
  ⟨by decide, plan_excludes_noops_and_dirs ["s"] ["t"] "ext"
    [⟨"a.txt", false, 0, 0⟩] [(["s", "a.txt"], ["t", "txt", "a.txt"])] (by decide)⟩

/-- Claim C7: when the undo-log file does not exist, `undo` only prints
`"No undo log found."` and returns: the filesystem and the log slot are
untouched and no error is raised (the function is total). -/
theorem undo_no_log (w : World) (dryRun : Bool) (h : w.log = none) :
    undo w dryRun = { w with out := w.out ++ [Msg.noLogFound] } := by
  obtain ⟨fs, log, out⟩ := w
  cases log with
  | none => rfl
  | some m => cases h

theorem undo_no_log_witness :
    (⟨⟨[["s", "a.txt"]], [["s"]]⟩, none, []⟩ : World).log = none ∧
    undo ⟨⟨[["s", "a.txt"]], [["s"]]⟩, none, []⟩ false =
      { (⟨⟨[["s", "a.txt"]], [["s"]]⟩, none, []⟩ : World) with
        out := (⟨⟨[["s", "a.txt"]], [["s"]]⟩, none, []⟩ : World).out ++ [Msg.noLogFound] } :=
  ⟨rfl, undo_no_log ⟨⟨[["s", "a.txt"]], [["s"]]⟩, none, []⟩ false rfl⟩

/-- Claim C8 fails on the code: for a record whose recorded destination
`t/txt/a.txt` is absent (second component) while the recorded origin
`s/a.txt` still exists, the claim requires a skip notification and no move;
but the engine existence-checks the record's first component (the origin),
so it emits a completion message and moves the origin to the destination
instead of skipping. -/
theorem undo_skip_checks_origin_not_destination :
    (undo ⟨⟨[["s", "a.txt"]], [["s"], ["t"], ["t", "txt"]]⟩,
        some [(["s", "a.txt"], ["t", "txt", "a.txt"])], []⟩ false).out =
      [Msg.undone ["s", "a.txt"] ["t", "txt", "a.txt"]] ∧
    (undo ⟨⟨[["s", "a.txt"]], [["s"], ["t"], ["t", "txt"]]⟩,
        some [(["s", "a.txt"], ["t", "txt", "a.txt"])], []⟩ false).out ≠
      [Msg.skipMissing ["t", "txt", "a.txt"]] ∧
    (undo ⟨⟨[["s", "a.txt"]], [["s"], ["t"], ["t", "txt"]]⟩,
        some [(["s", "a.txt"], ["t", "txt", "a.txt"])], []⟩ false).fs.files =
      [["t", "txt", "a.txt"]] := by
  decide

/-- Claim C9: in either mode, every operation of a successful plan keeps the
filename: the destination's final component equals the origin's final
component, and the origin is `source / name` for some non-directory entry of
the source listing (renaming only ever happens in the executor's collision
resolution). -/
theorem plan_never_renames (source target : Path) (mode : String)
    (entries : List Entry) (ops : List (Path × Path))
    (h : plan_moves source target mode entries = .ok ops) :
    ∀ op ∈ ops, fileName op.2 = fileName op.1 ∧
      ∃ e ∈ entries, e.isDir = false ∧ op.1 = source ++ [e.name] := by
  intro op hop
  obtain ⟨e, he, hdir, ho, _, hdest⟩ := plan_moves_mem source target mode entries ops h op hop
  refine ⟨?_, e, he, hdir, ho⟩
  have hofn : fileName op.1 = e.name := by
    rw [ho]
    exact fileName_append_singleton source e.name
  rcases hdest with hd | hd
  · have hsplit : target ++ [extDir e.name, e.name] =
        (target ++ [extDir e.name]) ++ [e.name] := by simp
    rw [hd, hofn, hsplit, fileName_append_singleton]
  · have hsplit : target ++ [pad 4 e.year, pad 2 e.month, e.name] =
        (target ++ [pad 4 e.year, pad 2 e.month]) ++ [e.name] := by simp
    rw [hd, hofn, hsplit, fileName_append_singleton]

theorem plan_never_renames_witness :
    plan_moves ["s"] ["t"] "date" [⟨"a.txt", false, 2023, 7⟩] =
      .ok [(["s", "a.txt"], ["t", "2023", "07", "a.txt"])] ∧
    ∀ op ∈ [((["s", "a.txt"] : Path), (["t", "2023", "07", "a.txt"] : Path))],
      fileName op.2 = fileName op.1 ∧
      ∃ e ∈ [(⟨"a.txt", false, 2023, 7⟩ : Entry)], e.isDir = false ∧ op.1 = ["s"] ++ [e.name] :=
  ⟨by decide, plan_never_renames ["s"] ["t"] "date"
    [⟨"a.txt", false, 2023, 7⟩] [(["s", "a.txt"], ["t", "2023", "07", "a.txt"])] (by decide)⟩

/-- Claim C10: for every destination and every (finite) filesystem, the
dedupe loop run with the fuel the executor supplies terminates with a result
(it never exhausts the fuel), and that result is the candidate with the least
counter `k ≥ 1` whose path does not exist. -/
theorem dedupe_loop_terminates_least (fs : FS) (dst : Path) :
    ∃ k, 1 ≤ k ∧
      dedupeLoop fs dst (fs.files.length + fs.dirs.length + 1) 1 =
        some (candidate dst k) ∧
      ¬ pexists fs (candidate dst k) ∧
      ∀ m, 1 ≤ m → m < k → pexists fs (candidate dst m) := by
  obtain ⟨j, hj, hfree⟩ := exists_free_cand fs dst 1
  exact dedupeLoop_spec fs dst (fs.files.length + fs.dirs.length + 1) 1 ⟨j, hj, hfree⟩

end FileOrganizer
